import Mathlib

/-!
Verification of the invite-claim bot (`InviteClaimBot/bot.py`).

Python dictionaries are embedded as association lists (`List (String × _)`)
so that insertion order is preserved: assigning to an existing key keeps its
position, assigning a new key appends it at the end, exactly as CPython
dicts behave.  The ledger (`invites.json`) maps community id → member id →
integer credit balance; the pool (`accounts.json`) is an ordered list of
strings.  File contents are embedded as a `FileState` inductive, JSON values
as a `JVal` inductive, delivery success as a boolean parameter, and each
handler returns the state it persisted.
-/

namespace InviteClaimBot

/-- Dictionary lookup: `d[k]` as an option, matching Python `dict.get`. -/
def lookupA {α : Type} : List (String × α) → String → Option α
  | [], _ => none
  | (k', v') :: rest, k => if k' = k then some v' else lookupA rest k

/-- Dictionary lookup with a default, matching Python `dict.get(k, d)`. -/
def lookupD {α : Type} (l : List (String × α)) (k : String) (d : α) : α :=
  (lookupA l k).getD d

/-- Dictionary assignment `d[k] = v`: updates an existing key in place
(keeping its position) or appends a fresh key at the end, matching CPython
insertion-order semantics. -/
def insertA {α : Type} : List (String × α) → String → α → List (String × α)
  | [], k, v => [(k, v)]
  | (k', v') :: rest, k, v =>
    if k' = k then (k, v) :: rest else (k', v') :: insertA rest k v

/-- Ledger document (`invites.json`): community id → member id → credit balance. -/
abbrev Ledger := List (String × List (String × Int))

/-- In-memory invite cache: community id → invite code → last observed use count. -/
abbrev Cache := List (String × List (String × Nat))

/-- Balance of member `u` in community `g`, reading an absent entry as 0
(the code's lazy-initialization default). -/
def userBal (L : Ledger) (g u : String) : Int :=
  lookupD (lookupD L g []) u 0

/-- Embeds `if guild_id not in invites: invites[guild_id] = {}` from
`on_member_join` and `initialize_user_invites`. -/
def ensure_guild (L : Ledger) (gid : String) : Ledger :=
  if (lookupA L gid).isSome then L else insertA L gid []

/-- Embeds `initialize_user_invites(invites, guild_id, user_id)` (bot.py
lines 88–100): create the guild map if absent, create the user's entry with
balance 0 if absent, then persist (`save_invites`).  The returned ledger is
the persisted one. -/
def init_user_invites (L : Ledger) (gid uid : String) : Ledger :=
  let L1 := ensure_guild L gid
  let g := lookupD L1 gid []
  if (lookupA g uid).isSome then L1 else insertA L1 gid (insertA g uid 0)

/-- Outcome of one `/claim` interaction. -/
inductive ClaimOutcome where
  | insufficientCredit
  | poolEmpty
  | dmFailed
  | success (delivered : String)
deriving DecidableEq, Repr

/-- Persisted state after one `/claim` interaction: `ledger` is the content
of `invites.json` afterwards, `pool` the content of `accounts.json`. -/
structure ClaimResult where
  outcome : ClaimOutcome
  ledger : Ledger
  pool : List String
deriving DecidableEq, Repr

/-- Embeds the `claim` slash command (bot.py lines 195–280).  `dmOk` is
whether `interaction.user.send` succeeds (`False` embeds `discord.Forbidden`
being raised).  Steps, in the code's order: lazily initialize and persist
the member's ledger entry, fail if balance < 1, fail if the pool is empty,
attempt the DM, and only on DM success pop the pool's front account,
persist the pool, decrement the balance and persist the ledger. -/
def claim (L : Ledger) (pool : List String) (gid uid : String) (dmOk : Bool) :
    ClaimResult :=
  let invites := init_user_invites L gid uid
  let user_invites := userBal invites gid uid
  if user_invites < 1 then
    ⟨.insufficientCredit, invites, pool⟩
  else
    match pool with
    | [] => ⟨.poolEmpty, invites, pool⟩
    | a :: rest =>
      if dmOk then
        let invites2 :=
          insertA invites gid (insertA (lookupD invites gid []) uid (user_invites - 1))
        ⟨.success a, invites2, rest⟩
      else
        ⟨.dmFailed, invites, a :: rest⟩

/-- One live invite as returned by `guild.invites()`: its code, its current
use count, and its inviter's id. -/
structure Invite where
  code : String
  uses : Nat
  inviter : String
deriving DecidableEq, Repr

/-- State after one `on_member_join` event.  `keyError` records the uncaught
`KeyError` raised by `invite_cache[member.guild.id]` when the community has
no cache entry (only `discord.Forbidden` is caught there); `saved` records
whether `save_invites` ran; `ledger` is the persisted ledger (unchanged when
the save was skipped) and `cache` the in-memory cache afterwards. -/
structure JoinResult where
  keyError : Bool
  saved : Bool
  ledger : Ledger
  cache : Cache
deriving DecidableEq, Repr

/-- Embeds the scan loop of `on_member_join`: the first invite (in
platform-returned order) whose live use count exceeds the cached count
(absent cache entry read as 0 via `.get(invite.code, 0)`). -/
def findUsed (cg : List (String × Nat)) : List Invite → Option Invite
  | [] => none
  | inv :: rest =>
    if lookupD cg inv.code 0 < inv.uses then some inv else findUsed cg rest

/-- Embeds `on_member_join` (bot.py lines 140–163).  Loads the ledger,
creates the community's entry if absent, fetches the live invites
(`newInvites`), scans them against the cache; on the first increased count
it credits that invite's inviter by 1 (lazily creating the entry), updates
the cache entry to the new live count and breaks; then persists the ledger.
When the community's cache is entirely absent and the live list is
non-empty, `invite_cache[member.guild.id]` raises `KeyError` on the first
iteration, which the surrounding `except discord.Forbidden` does not catch:
nothing is persisted. -/
def on_member_join (L : Ledger) (cache : Cache) (gid : String)
    (newInvites : List Invite) : JoinResult :=
  let invites := ensure_guild L gid
  match lookupA cache gid with
  | none =>
    match newInvites with
    | [] => ⟨false, true, invites, cache⟩
    | _ :: _ => ⟨true, false, L, cache⟩
  | some cg =>
    match findUsed cg newInvites with
    | none => ⟨false, true, invites, cache⟩
    | some inv =>
      let g0 := lookupD invites gid []
      let g1 := if (lookupA g0 inv.inviter).isSome then g0
                else insertA g0 inv.inviter 0
      let g2 := insertA g1 inv.inviter (lookupD g1 inv.inviter 0 + 1)
      ⟨false, true, insertA invites gid g2,
        insertA cache gid (insertA cg inv.code inv.uses)⟩

/-- JSON values, for the durable-store model. -/
inductive JVal where
  | jnull
  | jbool (b : Bool)
  | jnum (n : Int)
  | jstr (s : String)
  | jarr (xs : List JVal)
  | jobj (fields : List (String × JVal))

/-- Whether a parsed JSON value is a dictionary — the shape check
`isinstance(data, dict)` in `load_json` and `save_json`. -/
def isObj : JVal → Bool
  | .jobj _ => true
  | _ => false

/-- Content of one file on disk: absent (`FileNotFoundError` on open),
present but not parseable as JSON (`json.JSONDecodeError`), or a complete
stored JSON value. -/
inductive FileState where
  | absent
  | unparseable
  | stored (v : JVal)

/-- Whether reading this file fails `load_json`'s checks: absent,
unparseable, or parseable but not a dict. -/
def readFails : FileState → Bool
  | .stored v => !(isObj v)
  | _ => true

/-- Embeds `load_json(filename, default)` (bot.py lines 40–55): returns the
parsed dict when the file holds one; on absence, parse failure or a
non-dict value it writes `default` to the file and returns `default`.  The
result pairs the returned value with the file's content afterwards; the
function is total — read failures are healed, never propagated. -/
def load_json (fs : FileState) (default : JVal) : JVal × FileState :=
  match fs with
  | .stored v => if isObj v then (v, .stored v) else (default, .stored default)
  | _ => (default, .stored default)

/-- Point at which the process may die during `save_json`: before touching
the temp file, mid-way through writing it, after writing it but before the
rename, or not at all (the `os.replace` rename is atomic, so these are the
only observable intermediate states of the target file). -/
inductive SaveCrash where
  | beforeTempWrite
  | duringTempWrite
  | afterTempWrite
  | completed

/-- State after `save_json(filename, data)` (bot.py lines 57–74) attempted
with a given crash point: `raised` is the `ValueError` for non-dict data
(checked before any write); `target` and `temp` are the target file and the
temporary sibling afterwards. -/
structure SaveResult where
  raised : Bool
  target : FileState
  temp : FileState

/-- Embeds `save_json`: reject non-dict data with `ValueError`, else write
the full document to `filename + ".tmp"` and atomically rename it over the
target, so the target file only ever transitions complete-old →
complete-new. -/
def save_json (target : FileState) (data : JVal) (crash : SaveCrash) :
    SaveResult :=
  if isObj data then
    match crash with
    | .beforeTempWrite => ⟨false, target, .absent⟩
    | .duringTempWrite => ⟨false, target, .unparseable⟩
    | .afterTempWrite => ⟨false, target, .stored data⟩
    | .completed => ⟨false, .stored data, .absent⟩
  else ⟨true, target, .absent⟩

/-! ### Association-list lemmas -/

theorem lookupA_insertA_self {α : Type} (l : List (String × α)) (k : String)
    (v : α) : lookupA (insertA l k v) k = some v := by
  induction l with
  | nil => simp [insertA, lookupA]
  | cons p rest ih =>
    by_cases h : p.1 = k
    · simp [insertA, h, lookupA]
    · simp [insertA, h, lookupA, ih]

theorem lookupA_insertA_ne {α : Type} (l : List (String × α)) (k k' : String)
    (v : α) (h : k' ≠ k) : lookupA (insertA l k v) k' = lookupA l k' := by
  induction l with
  | nil => simp [insertA, lookupA, Ne.symm h]
  | cons p rest ih =>
    by_cases hp : p.1 = k
    · simp [insertA, hp, lookupA, Ne.symm h]
    · by_cases hp' : p.1 = k'
      · simp [insertA, hp, hp', lookupA, h]
      · simp [insertA, hp, lookupA, hp', ih]

theorem lookupD_insertA_self {α : Type} (l : List (String × α)) (k : String)
    (v d : α) : lookupD (insertA l k v) k d = v := by
  simp [lookupD, lookupA_insertA_self]

theorem lookupD_insertA_ne {α : Type} (l : List (String × α)) (k k' : String)
    (v d : α) (h : k' ≠ k) : lookupD (insertA l k v) k' d = lookupD l k' d := by
  simp [lookupD, lookupA_insertA_ne l k k' v h]

/-! ### Lazy initialization lemmas -/

theorem userBal_ensure_guild (L : Ledger) (gid : String) :
    userBal (ensure_guild L gid) = userBal L := by
  funext g' u'
  unfold ensure_guild
  by_cases h : (lookupA L gid).isSome
  · simp [h]
  · simp only [h, if_false]
    by_cases hg : g' = gid
    · subst hg
      cases hL : lookupA L g' with
      | none => simp [userBal, lookupD, lookupA_insertA_self, hL, lookupA]
      | some v => simp [hL] at h
    · simp [userBal, lookupD, lookupA_insertA_ne L gid g' [] hg]

theorem userBal_init_user_invites (L : Ledger) (gid uid : String) :
    userBal (init_user_invites L gid uid) = userBal L := by
  unfold init_user_invites
  by_cases h : (lookupA (lookupD (ensure_guild L gid) gid []) uid).isSome
  · simpa [h] using userBal_ensure_guild L gid
  · simp only [h, if_false]
    funext g' u'
    rw [show userBal L g' u' = userBal (ensure_guild L gid) g' u' from
      (congrFun (congrFun (userBal_ensure_guild L gid) g') u').symm]
    set L1 := ensure_guild L gid with hL1
    by_cases hg : g' = gid
    · subst hg
      by_cases hu : u' = uid
      · subst hu
        have hnone : lookupA ((lookupA L1 g').getD []) u' = none := by
          cases hA : lookupA ((lookupA L1 g').getD []) u' with
          | none => rfl
          | some v => exact absurd (by simp [lookupD, hA]) h
        simp [userBal, lookupD, lookupA_insertA_self, hnone]
      · have hne := fun (l : List (String × Int)) (v : Int) =>
          lookupA_insertA_ne l uid u' v hu
        simp [userBal, lookupD, lookupA_insertA_self, hne]
    · have hgn := fun (g : List (String × Int)) =>
        lookupA_insertA_ne L1 gid g' g hg
      simp [userBal, lookupD, hgn]

theorem init_user_invites_of_pos (L : Ledger) (gid uid : String)
    (h : userBal L gid uid ≠ 0) : init_user_invites L gid uid = L := by
  simp only [userBal, lookupD] at h
  have hg : (lookupA L gid).isSome := by
    cases hA : lookupA L gid with
    | none => simp [hA, lookupA] at h
    | some grp => simp
  have hgrp : (lookupA ((lookupA L gid).getD []) uid).isSome := by
    cases hA : lookupA ((lookupA L gid).getD []) uid with
    | none => simp [hA] at h
    | some v => simp
  unfold init_user_invites ensure_guild
  simp [hg, lookupD, hgrp]

theorem userBal_init_apply (L : Ledger) (gid uid g' u' : String) :
    userBal (init_user_invites L gid uid) g' u' = userBal L g' u' :=
  congrFun (congrFun (userBal_init_user_invites L gid uid) g') u'

theorem userBal_set (L : Ledger) (g u : String) (v : Int) :
    userBal (insertA L g (insertA (lookupD L g []) u v)) g u = v := by
  simp [userBal, lookupD, lookupA_insertA_self]

theorem claim_success_eq (L : Ledger) (X : String) (rest : List String)
    (g u : String) (hb : 1 ≤ userBal L g u) :
    claim L (X :: rest) g u true =
      ⟨.success X,
        insertA L g (insertA (lookupD L g []) u (userBal L g u - 1)), rest⟩ := by
  have hL : init_user_invites L g u = L :=
    init_user_invites_of_pos L g u (by omega)
  unfold claim
  simp [hL, not_lt.mpr hb]

/-! ### Claim-transaction theorems -/

/-- C1: a claim by a member with balance ≥ 1, on a non-empty pool
`X :: rest`, with a successful DM, delivers exactly `X`, persists the pool
as `rest` (front removed, the others unchanged in order), and persists the
member's balance decremented by exactly 1. -/
theorem C1_claim_success (L : Ledger) (X : String) (rest : List String)
    (g u : String) (hb : 1 ≤ userBal L g u) :
    (claim L (X :: rest) g u true).outcome = .success X
    ∧ (claim L (X :: rest) g u true).pool = rest
    ∧ userBal (claim L (X :: rest) g u true).ledger g u = userBal L g u - 1 := by
  rw [claim_success_eq L X rest g u hb]
  exact ⟨rfl, rfl, userBal_set L g u (userBal L g u - 1)⟩

theorem C1_claim_success_witness :
    1 ≤ userBal [("g", [("u", 2)])] "g" "u"
    ∧ ((claim [("g", [("u", 2)])] ["X", "Y"] "g" "u" true).outcome = .success "X"
      ∧ (claim [("g", [("u", 2)])] ["X", "Y"] "g" "u" true).pool = ["Y"]
      ∧ userBal (claim [("g", [("u", 2)])] ["X", "Y"] "g" "u" true).ledger "g" "u"
          = userBal [("g", [("u", 2)])] "g" "u" - 1) :=
  ⟨by decide, C1_claim_success [("g", [("u", 2)])] "X" ["Y"] "g" "u" (by decide)⟩

/-- C2: for every claim attempt, the persisted pool and ledger move
together or not at all — either the pool is unchanged and every balance
(read with the lazy default 0) is unchanged, or the pool lost exactly its
front element and the member's balance dropped by exactly 1.  There is no
outcome where only one document moved. -/
theorem C2_pool_ledger_atomic (L : Ledger) (pool : List String)
    (g u : String) (dm : Bool) :
    ((claim L pool g u dm).pool = pool
      ∧ userBal (claim L pool g u dm).ledger = userBal L)
    ∨ ((claim L pool g u dm).pool = pool.tail ∧ pool ≠ []
      ∧ userBal (claim L pool g u dm).ledger g u = userBal L g u - 1) := by
  by_cases h1 : userBal L g u < 1
  · left
    unfold claim
    simp [userBal_init_user_invites, h1]
  · cases pool with
    | nil =>
      left
      unfold claim
      simp [userBal_init_user_invites, h1]
    | cons a rest =>
      cases dm with
      | false =>
        left
        unfold claim
        simp [userBal_init_user_invites, h1]
      | true =>
        right
        refine ⟨?_, by simp, ?_⟩
        · unfold claim
          simp [userBal_init_user_invites, h1]
        · show userBal (claim L (a :: rest) g u true).ledger g u = _
          unfold claim
          simp [userBal_init_user_invites, h1, userBal_set]

/-- C3: a claim by a member whose balance (absent entry read as 0) is
below 1 ends in the insufficient-credit outcome, no delivery happens (the
result is the same whatever `dmOk` is), the persisted pool is unchanged
with identical length, and every persisted balance is unchanged. -/
theorem C3_insufficient_credit (L : Ledger) (pool : List String)
    (g u : String) (dm : Bool) (hb : userBal L g u < 1) :
    (claim L pool g u dm).outcome = .insufficientCredit
    ∧ (claim L pool g u dm).pool = pool
    ∧ (claim L pool g u dm).pool.length = pool.length
    ∧ userBal (claim L pool g u dm).ledger = userBal L := by
  unfold claim
  simp [userBal_init_user_invites, hb]

theorem C3_insufficient_credit_witness :
    userBal [] "g" "u" < 1
    ∧ ((claim [] ["X"] "g" "u" true).outcome = .insufficientCredit
      ∧ (claim [] ["X"] "g" "u" true).pool = ["X"]
      ∧ (claim [] ["X"] "g" "u" true).pool.length = (["X"] : List String).length
      ∧ userBal (claim [] ["X"] "g" "u" true).ledger = userBal []) :=
  ⟨by decide, C3_insufficient_credit [] ["X"] "g" "u" true (by decide)⟩

/-- C4: a claim with balance ≥ 1 and non-empty pool whose DM delivery
fails mutates nothing: the persisted pool and ledger are exactly the ones
from before the attempt, and the pool's first element is still its head
verbatim. -/
theorem C4_dm_failure (L : Ledger) (X : String) (rest : List String)
    (g u : String) (hb : 1 ≤ userBal L g u) :
    (claim L (X :: rest) g u false).outcome = .dmFailed
    ∧ (claim L (X :: rest) g u false).pool = X :: rest
    ∧ (claim L (X :: rest) g u false).pool.head? = some X
    ∧ (claim L (X :: rest) g u false).ledger = L := by
  have hL : init_user_invites L g u = L :=
    init_user_invites_of_pos L g u (by omega)
  unfold claim
  simp [hL, not_lt.mpr hb]

theorem C4_dm_failure_witness :
    1 ≤ userBal [("g", [("u", 3)])] "g" "u"
    ∧ ((claim [("g", [("u", 3)])] ["X", "Y"] "g" "u" false).outcome = .dmFailed
      ∧ (claim [("g", [("u", 3)])] ["X", "Y"] "g" "u" false).pool = ["X", "Y"]
      ∧ (claim [("g", [("u", 3)])] ["X", "Y"] "g" "u" false).pool.head? = some "X"
      ∧ (claim [("g", [("u", 3)])] ["X", "Y"] "g" "u" false).ledger
          = [("g", [("u", 3)])]) :=
  ⟨by decide, C4_dm_failure [("g", [("u", 3)])] "X" ["Y"] "g" "u" (by decide)⟩

/-! ### Reconciliation lemmas -/

/-- No invite in the list has a live use count above its cached count. -/
def allLe (cg : List (String × Nat)) : List Invite → Bool
  | [] => true
  | i :: rest => decide (i.uses ≤ lookupD cg i.code 0) && allLe cg rest

theorem findUsed_eq_none (cg : List (String × Nat)) (invs : List Invite)
    (h : allLe cg invs = true) : findUsed cg invs = none := by
  induction invs with
  | nil => rfl
  | cons i rest ih =>
    simp only [allLe, Bool.and_eq_true, decide_eq_true_eq] at h
    simp [findUsed, not_lt.mpr h.1, ih h.2]

theorem findUsed_append (cg : List (String × Nat)) (pre rest : List Invite)
    (h : allLe cg pre = true) : findUsed cg (pre ++ rest) = findUsed cg rest := by
  induction pre with
  | nil => rfl
  | cons i p ih =>
    simp only [allLe, Bool.and_eq_true, decide_eq_true_eq] at h
    simp [findUsed, not_lt.mpr h.1, ih h.2]

theorem findUsed_cons_gt (cg : List (String × Nat)) (inv : Invite)
    (rest : List Invite) (h : lookupD cg inv.code 0 < inv.uses) :
    findUsed cg (inv :: rest) = some inv := by
  simp [findUsed, h]

theorem on_member_join_match (L : Ledger) (cache : Cache) (gid : String)
    (cg : List (String × Nat)) (invs : List Invite) (inv : Invite)
    (hc : lookupA cache gid = some cg) (hm : findUsed cg invs = some inv) :
    on_member_join L cache gid invs =
      ⟨false, true,
        insertA (ensure_guild L gid) gid
          (insertA
            (if (lookupA (lookupD (ensure_guild L gid) gid []) inv.inviter).isSome
              then lookupD (ensure_guild L gid) gid []
              else insertA (lookupD (ensure_guild L gid) gid []) inv.inviter 0)
            inv.inviter
            (lookupD
              (if (lookupA (lookupD (ensure_guild L gid) gid []) inv.inviter).isSome
                then lookupD (ensure_guild L gid) gid []
                else insertA (lookupD (ensure_guild L gid) gid []) inv.inviter 0)
              inv.inviter 0 + 1)),
        insertA cache gid (insertA cg inv.code inv.uses)⟩ := by
  simp [on_member_join, hc, hm]

theorem userBal_credit (L1 : Ledger) (gid y : String) :
    userBal (insertA L1 gid
      (insertA
        (if (lookupA (lookupD L1 gid []) y).isSome then lookupD L1 gid []
          else insertA (lookupD L1 gid []) y 0)
        y
        (lookupD
          (if (lookupA (lookupD L1 gid []) y).isSome then lookupD L1 gid []
            else insertA (lookupD L1 gid []) y 0) y 0 + 1)))
      gid y = userBal L1 gid y + 1 := by
  by_cases h : (lookupA (lookupD L1 gid []) y).isSome
  · rw [if_pos h]
    simp [userBal, lookupD, lookupA_insertA_self]
  · rw [if_neg h]
    have h0 : lookupA (lookupD L1 gid []) y = none :=
      Option.not_isSome_iff_eq_none.mp h
    rw [lookupD_insertA_self]
    simp only [lookupD] at h0
    simp [userBal, lookupD, lookupA_insertA_self, h0]

/-! ### Reconciliation theorems -/

/-- C5: on a member join, with the community's cache present, the first
invite (in platform order) whose live count exceeds its cached count
(absent entries read as 0) is the one credited: its inviter's balance goes
up by exactly 1, the cache entry for that code becomes the new live count,
the ledger is persisted, and scanning stops at the first match — the
result does not depend on the invites after it.  When no count exceeds its
cached count, no error is raised, the ledger is persisted with every
balance unchanged, and no credit is issued. -/
theorem C5_first_match_reconciliation (L : Ledger) (cache : Cache)
    (gid : String) (cg : List (String × Nat)) (pre post invs : List Invite)
    (inv : Invite) (hc : lookupA cache gid = some cg)
    (hpre : allLe cg pre = true) (hinv : lookupD cg inv.code 0 < inv.uses)
    (hall : allLe cg invs = true) :
    (on_member_join L cache gid (pre ++ inv :: post)).keyError = false
    ∧ (on_member_join L cache gid (pre ++ inv :: post)).saved = true
    ∧ userBal (on_member_join L cache gid (pre ++ inv :: post)).ledger
        gid inv.inviter = userBal L gid inv.inviter + 1
    ∧ lookupA
        (lookupD (on_member_join L cache gid (pre ++ inv :: post)).cache gid [])
        inv.code = some inv.uses
    ∧ on_member_join L cache gid (pre ++ inv :: post)
        = on_member_join L cache gid (pre ++ [inv])
    ∧ (on_member_join L cache gid invs).keyError = false
    ∧ (on_member_join L cache gid invs).saved = true
    ∧ userBal (on_member_join L cache gid invs).ledger = userBal L
    ∧ (on_member_join L cache gid invs).cache = cache := by
  have hm : findUsed cg (pre ++ inv :: post) = some inv := by
    rw [findUsed_append cg pre _ hpre, findUsed_cons_gt cg inv post hinv]
  have hm1 : findUsed cg (pre ++ [inv]) = some inv := by
    rw [findUsed_append cg pre _ hpre, findUsed_cons_gt cg inv [] hinv]
  have hmn : findUsed cg invs = none := findUsed_eq_none cg invs hall
  have hjoin : on_member_join L cache gid invs
      = ⟨false, true, ensure_guild L gid, cache⟩ := by
    simp [on_member_join, hc, hmn]
  rw [on_member_join_match L cache gid cg _ inv hc hm,
    on_member_join_match L cache gid cg _ inv hc hm1, hjoin]
  refine ⟨rfl, rfl, ?_, ?_, rfl, rfl, rfl, userBal_ensure_guild L gid, rfl⟩
  · rw [userBal_credit]
    rw [show userBal (ensure_guild L gid) gid inv.inviter
        = userBal L gid inv.inviter from
      congrFun (congrFun (userBal_ensure_guild L gid) gid) inv.inviter]
  · simp [lookupD_insertA_self, lookupA_insertA_self]

theorem C5_first_match_reconciliation_witness :
    (lookupA ([("g", [("A", 3), ("B", 5)])] : Cache) "g"
        = some [("A", 3), ("B", 5)]
      ∧ allLe [("A", 3), ("B", 5)] [⟨"A", 3, "ua"⟩] = true
      ∧ lookupD [("A", 3), ("B", 5)] "B" 0 < 6
      ∧ allLe [("A", 3), ("B", 5)] [⟨"A", 3, "ua"⟩, ⟨"B", 5, "ub"⟩] = true)
    ∧ ((on_member_join [] [("g", [("A", 3), ("B", 5)])] "g"
          [⟨"A", 3, "ua"⟩, ⟨"B", 6, "ub"⟩]).keyError = false
      ∧ (on_member_join [] [("g", [("A", 3), ("B", 5)])] "g"
          [⟨"A", 3, "ua"⟩, ⟨"B", 6, "ub"⟩]).saved = true
      ∧ userBal (on_member_join [] [("g", [("A", 3), ("B", 5)])] "g"
          [⟨"A", 3, "ua"⟩, ⟨"B", 6, "ub"⟩]).ledger "g" "ub"
          = userBal [] "g" "ub" + 1
      ∧ lookupA (lookupD (on_member_join [] [("g", [("A", 3), ("B", 5)])] "g"
          [⟨"A", 3, "ua"⟩, ⟨"B", 6, "ub"⟩]).cache "g" []) "B" = some 6
      ∧ on_member_join [] [("g", [("A", 3), ("B", 5)])] "g"
          [⟨"A", 3, "ua"⟩, ⟨"B", 6, "ub"⟩]
        = on_member_join [] [("g", [("A", 3), ("B", 5)])] "g"
          [⟨"A", 3, "ua"⟩, ⟨"B", 6, "ub"⟩]
      ∧ (on_member_join [] [("g", [("A", 3), ("B", 5)])] "g"
          [⟨"A", 3, "ua"⟩, ⟨"B", 5, "ub"⟩]).keyError = false
      ∧ (on_member_join [] [("g", [("A", 3), ("B", 5)])] "g"
          [⟨"A", 3, "ua"⟩, ⟨"B", 5, "ub"⟩]).saved = true
      ∧ userBal (on_member_join [] [("g", [("A", 3), ("B", 5)])] "g"
          [⟨"A", 3, "ua"⟩, ⟨"B", 5, "ub"⟩]).ledger = userBal []
      ∧ (on_member_join [] [("g", [("A", 3), ("B", 5)])] "g"
          [⟨"A", 3, "ua"⟩, ⟨"B", 5, "ub"⟩]).cache
        = [("g", [("A", 3), ("B", 5)])]) :=
  ⟨⟨by decide, by decide, by decide, by decide⟩,
    C5_first_match_reconciliation [] [("g", [("A", 3), ("B", 5)])] "g"
      [("A", 3), ("B", 5)] [⟨"A", 3, "ua"⟩] [] [⟨"A", 3, "ua"⟩, ⟨"B", 5, "ub"⟩]
      ⟨"B", 6, "ub"⟩ (by decide) (by decide) (by decide) (by decide)⟩

/-- C6: the spec requires the diff logic to tolerate a community whose
cache is entirely absent, but the code indexes `invite_cache[guild.id]`
directly inside a `try` that only catches `discord.Forbidden`: with no
cache entry and a non-empty live invite list, the event handler raises an
uncaught `KeyError` and skips `save_invites`.  Evaluated here at the
failing input: empty cache, one live invite. -/
theorem C6_missing_cache_keyerror :
    (on_member_join [] [] "g" [⟨"c", 1, "u"⟩]).keyError = true
    ∧ (on_member_join [] [] "g" [⟨"c", 1, "u"⟩]).saved = false := by
  decide

/-- C10: on a member join with the community's cache present and no invite
count above its cached count, the handler still persists the ledger,
creating the community's entry as an empty mapping when it was absent and
leaving it untouched otherwise, with every balance unchanged. -/
theorem C10_nomatch_persists_ledger (L : Ledger) (cache : Cache)
    (gid : String) (cg : List (String × Nat)) (invs : List Invite)
    (hc : lookupA cache gid = some cg) (hall : allLe cg invs = true) :
    (on_member_join L cache gid invs).keyError = false
    ∧ (on_member_join L cache gid invs).saved = true
    ∧ (on_member_join L cache gid invs).ledger
        = (if (lookupA L gid).isSome then L else insertA L gid [])
    ∧ userBal (on_member_join L cache gid invs).ledger = userBal L := by
  have hm := findUsed_eq_none cg invs hall
  have hjoin : on_member_join L cache gid invs
      = ⟨false, true, ensure_guild L gid, cache⟩ := by
    simp [on_member_join, hc, hm]
  rw [hjoin]
  exact ⟨rfl, rfl, rfl, userBal_ensure_guild L gid⟩

theorem C10_nomatch_persists_ledger_witness :
    (lookupA ([("g", [("A", 3)])] : Cache) "g" = some [("A", 3)]
      ∧ allLe [("A", 3)] [⟨"A", 3, "ua"⟩] = true)
    ∧ ((on_member_join [] [("g", [("A", 3)])] "g" [⟨"A", 3, "ua"⟩]).keyError
          = false
      ∧ (on_member_join [] [("g", [("A", 3)])] "g" [⟨"A", 3, "ua"⟩]).saved = true
      ∧ (on_member_join [] [("g", [("A", 3)])] "g" [⟨"A", 3, "ua"⟩]).ledger
          = (if (lookupA ([] : Ledger) "g").isSome then ([] : Ledger)
             else insertA [] "g" [])
      ∧ userBal (on_member_join [] [("g", [("A", 3)])] "g"
          [⟨"A", 3, "ua"⟩]).ledger = userBal []) :=
  ⟨⟨by decide, by decide⟩,
    C10_nomatch_persists_ledger [] [("g", [("A", 3)])] "g" [("A", 3)]
      [⟨"A", 3, "ua"⟩] (by decide) (by decide)⟩

/-! ### Durable-store theorems -/

theorem load_json_stored_fst (d : JVal) : (load_json (.stored d) d).1 = d := by
  unfold load_json
  by_cases hd : isObj d
  · simp [hd]
  · simp [hd]

/-- C7: loading a file that is absent, unparseable, or parseable but not a
dict returns the supplied default, leaves the file holding exactly that
default (the healing write happens before returning), and a second load of
the healed file returns the same default; `load_json` is total, so the
read failure never reaches the caller. -/
theorem C7_load_heals (fs : FileState) (d : JVal) (h : readFails fs = true) :
    (load_json fs d).1 = d
    ∧ (load_json fs d).2 = .stored d
    ∧ (load_json (load_json fs d).2 d).1 = d := by
  cases fs with
  | absent => exact ⟨rfl, rfl, load_json_stored_fst d⟩
  | unparseable => exact ⟨rfl, rfl, load_json_stored_fst d⟩
  | stored v =>
    have hv : isObj v = false := by simpa [readFails] using h
    refine ⟨?_, ?_, ?_⟩
    · simp [load_json, hv]
    · simp [load_json, hv]
    · have h2 : (load_json (.stored v) d).2 = FileState.stored d := by
        simp [load_json, hv]
      rw [h2]
      exact load_json_stored_fst d

theorem C7_load_heals_witness :
    readFails .absent = true
    ∧ ((load_json .absent (.jobj [("accounts", .jarr [])])).1
        = .jobj [("accounts", .jarr [])]
      ∧ (load_json .absent (.jobj [("accounts", .jarr [])])).2
        = .stored (.jobj [("accounts", .jarr [])])
      ∧ (load_json (load_json .absent (.jobj [("accounts", .jarr [])])).2
          (.jobj [("accounts", .jarr [])])).1 = .jobj [("accounts", .jarr [])]) :=
  ⟨rfl, C7_load_heals .absent (.jobj [("accounts", .jarr [])]) rfl⟩

/-- C8: saving a keyed-mapping document raises nothing, and loading the
target afterwards returns a value structurally equal to what was saved
(round trip); moreover, whatever the crash point during the save — before
the temp write, mid temp write, after it, or after the atomic rename —
the target file is always either the old complete content or the new
complete document, never a partial write. -/
theorem C8_roundtrip_atomicity (target : FileState)
    (fields : List (String × JVal)) (d : JVal) (crash : SaveCrash) :
    (save_json target (.jobj fields) .completed).raised = false
    ∧ (load_json (save_json target (.jobj fields) .completed).target d).1
        = .jobj fields
    ∧ ((save_json target (.jobj fields) crash).target = target
      ∨ (save_json target (.jobj fields) crash).target
          = .stored (.jobj fields)) := by
  refine ⟨rfl, ?_, ?_⟩
  · simp [save_json, load_json, isObj]
  · cases crash <;> simp [save_json, isObj]

/-! ### Ledger non-negativity -/

/-- Every balance in one community's map is ≥ 0. -/
def grpNonneg (g : List (String × Int)) : Bool :=
  g.all (fun q => decide (0 ≤ q.2))

/-- Every balance in every community of the ledger is ≥ 0. -/
def allNonneg (L : Ledger) : Bool :=
  L.all (fun p => grpNonneg p.2)

theorem grpNonneg_insertA (g : List (String × Int)) (k : String) (v : Int)
    (hg : grpNonneg g = true) (hv : 0 ≤ v) :
    grpNonneg (insertA g k v) = true := by
  induction g with
  | nil => simp [insertA, grpNonneg, hv]
  | cons p rest ih =>
    simp only [grpNonneg, List.all_cons, Bool.and_eq_true,
      decide_eq_true_eq] at hg
    by_cases h : p.1 = k
    · simp [insertA, h, grpNonneg, hv, hg.2]
    · simp only [insertA, h, if_false, grpNonneg, List.all_cons,
        Bool.and_eq_true, decide_eq_true_eq]
      exact ⟨hg.1, ih hg.2⟩

theorem allNonneg_insertA (L : Ledger) (gid : String)
    (g : List (String × Int)) (hL : allNonneg L = true)
    (hg : grpNonneg g = true) : allNonneg (insertA L gid g) = true := by
  induction L with
  | nil => simp [insertA, allNonneg, hg]
  | cons p rest ih =>
    simp only [allNonneg, List.all_cons, Bool.and_eq_true] at hL
    by_cases h : p.1 = gid
    · simp only [insertA, h, if_true, allNonneg, List.all_cons,
        Bool.and_eq_true]
      exact ⟨hg, hL.2⟩
    · simp only [insertA, h, if_false, allNonneg, List.all_cons,
        Bool.and_eq_true]
      exact ⟨hL.1, ih hL.2⟩

theorem grpNonneg_lookupD (g : List (String × Int)) (k : String)
    (hg : grpNonneg g = true) : 0 ≤ lookupD g k 0 := by
  induction g with
  | nil => simp [lookupD, lookupA]
  | cons p rest ih =>
    simp only [grpNonneg, List.all_cons, Bool.and_eq_true,
      decide_eq_true_eq] at hg
    by_cases h : p.1 = k
    · simpa [lookupD, lookupA, h] using hg.1
    · simp only [lookupD, lookupA, h, if_false]
      exact ih hg.2

theorem allNonneg_lookupD (L : Ledger) (gid : String)
    (hL : allNonneg L = true) : grpNonneg (lookupD L gid []) = true := by
  induction L with
  | nil => rfl
  | cons p rest ih =>
    simp only [allNonneg, List.all_cons, Bool.and_eq_true] at hL
    by_cases h : p.1 = gid
    · simpa [lookupD, lookupA, h] using hL.1
    · simp only [lookupD, lookupA, h, if_false]
      exact ih hL.2

theorem allNonneg_ensure_guild (L : Ledger) (gid : String)
    (hL : allNonneg L = true) : allNonneg (ensure_guild L gid) = true := by
  unfold ensure_guild
  by_cases h : (lookupA L gid).isSome
  · simpa [h] using hL
  · simp only [h, if_false]
    exact allNonneg_insertA L gid [] hL rfl

theorem allNonneg_init (L : Ledger) (gid uid : String)
    (hL : allNonneg L = true) :
    allNonneg (init_user_invites L gid uid) = true := by
  unfold init_user_invites
  have h1 := allNonneg_ensure_guild L gid hL
  by_cases h : (lookupA (lookupD (ensure_guild L gid) gid []) uid).isSome
  · simpa [h] using h1
  · simp only [h, if_false]
    exact allNonneg_insertA _ gid _ h1
      (grpNonneg_insertA _ uid 0 (allNonneg_lookupD _ gid h1) le_rfl)

/-- C9: every ledger-touching operation — lazy initialization, the
reconciliation credit on a member join, and the claim transaction —
preserves non-negativity of every balance: from a ledger whose balances
are all ≥ 0, each produces a persisted ledger whose balances are all
≥ 0. -/
theorem C9_balances_stay_nonneg (L : Ledger) (cache : Cache)
    (pool : List String) (gid uid : String) (invs : List Invite) (dm : Bool)
    (hL : allNonneg L = true) :
    allNonneg (init_user_invites L gid uid) = true
    ∧ allNonneg (on_member_join L cache gid invs).ledger = true
    ∧ allNonneg (claim L pool gid uid dm).ledger = true := by
  refine ⟨allNonneg_init L gid uid hL, ?_, ?_⟩
  · cases hcache : lookupA cache gid with
    | none =>
      cases invs with
      | nil =>
        have : (on_member_join L cache gid []).ledger = ensure_guild L gid := by
          simp [on_member_join, hcache]
        rw [this]
        exact allNonneg_ensure_guild L gid hL
      | cons i rest =>
        have : (on_member_join L cache gid (i :: rest)).ledger = L := by
          simp [on_member_join, hcache]
        rw [this]
        exact hL
    | some cg =>
      cases hm : findUsed cg invs with
      | none =>
        have : (on_member_join L cache gid invs).ledger = ensure_guild L gid := by
          simp [on_member_join, hcache, hm]
        rw [this]
        exact allNonneg_ensure_guild L gid hL
      | some inv =>
        rw [on_member_join_match L cache gid cg invs inv hcache hm]
        have h1 := allNonneg_ensure_guild L gid hL
        have hg1 : grpNonneg
            (if (lookupA (lookupD (ensure_guild L gid) gid [])
                  inv.inviter).isSome
              then lookupD (ensure_guild L gid) gid []
              else insertA (lookupD (ensure_guild L gid) gid [])
                inv.inviter 0) = true := by
          by_cases hy : (lookupA (lookupD (ensure_guild L gid) gid [])
              inv.inviter).isSome
          · rw [if_pos hy]
            exact allNonneg_lookupD _ gid h1
          · rw [if_neg hy]
            exact grpNonneg_insertA _ inv.inviter 0
              (allNonneg_lookupD _ gid h1) le_rfl
        exact allNonneg_insertA _ gid _ h1
          (grpNonneg_insertA _ inv.inviter _ hg1
            (by have := grpNonneg_lookupD _ inv.inviter hg1; omega))
  · by_cases h1 : userBal L gid uid < 1
    · have : (claim L pool gid uid dm).ledger = init_user_invites L gid uid := by
        unfold claim
        simp [userBal_init_user_invites, h1]
      rw [this]
      exact allNonneg_init L gid uid hL
    · cases pool with
      | nil =>
        have : (claim L [] gid uid dm).ledger = init_user_invites L gid uid := by
          unfold claim
          simp [userBal_init_user_invites, h1]
        rw [this]
        exact allNonneg_init L gid uid hL
      | cons a rest =>
        cases dm with
        | false =>
          have : (claim L (a :: rest) gid uid false).ledger
              = init_user_invites L gid uid := by
            unfold claim
            simp [userBal_init_user_invites, h1]
          rw [this]
          exact allNonneg_init L gid uid hL
        | true =>
          have heq : (claim L (a :: rest) gid uid true).ledger
              = insertA (init_user_invites L gid uid) gid
                  (insertA (lookupD (init_user_invites L gid uid) gid [])
                    uid (userBal L gid uid - 1)) := by
            unfold claim
            simp [userBal_init_user_invites, h1]
          rw [heq]
          exact allNonneg_insertA _ gid _ (allNonneg_init L gid uid hL)
            (grpNonneg_insertA _ uid _
              (allNonneg_lookupD _ gid (allNonneg_init L gid uid hL))
              (by omega))

theorem C9_balances_stay_nonneg_witness :
    allNonneg [("g", [("u", 1)])] = true
    ∧ (allNonneg (init_user_invites [("g", [("u", 1)])] "g" "u") = true
      ∧ allNonneg (on_member_join [("g", [("u", 1)])] [("g", [("A", 0)])] "g"
          [⟨"A", 1, "u"⟩]).ledger = true
      ∧ allNonneg (claim [("g", [("u", 1)])] ["X"] "g" "u" true).ledger = true) :=
  ⟨by decide,
    C9_balances_stay_nonneg [("g", [("u", 1)])] [("g", [("A", 0)])] ["X"]
      "g" "u" [⟨"A", 1, "u"⟩] true (by decide)⟩

end InviteClaimBot
